import Mathlib

set_option autoImplicit false

/-!
Verification of the market-data time-series analysis and trading-system core.

This file gives a shallow embedding, in Lean 4, of the core computations of
the `market-data` repository (package `yahooFinance`): the incremental
time-series indicators of `price.py`, the generic analysis driver of
`timeseries.py`, the trading-system state machine of `portfolio/strategy.py`,
and the statistics helpers of `strategy.py`.  Python floats are embedded as
rationals (`ℚ`), so every stated equality is exact; dates are embedded as
integers (only their ordering is used by the embedded code); Python row
indices are natural numbers.  Code that raises an exception is embedded with
`Except`/`Option`, and the empty cell marker `""` used for not-yet-available
rows is embedded as `none`.

Each theorem at the end of the file settles one claim about this code.
-/

namespace MarketData

/-! Trading-system state machine (`portfolio/strategy.py`, class `tradingSystem`)

`tradingSystem.__calculation__` keeps mutable fields `__position__`,
`equity`, `debt` on the instance; we embed them as an explicit state record
threaded through the row loop. -/

/-- The mutable state of a `tradingSystem` instance: `__position__`
(1 = Long, -1 = Short, 0 = flat), `equity` and `debt`. -/
structure SysState where
  position : ℤ
  equity : ℚ
  debt : ℚ
  deriving Repr, DecidableEq

/-- The exit block of `tradingSystem.__calculation__`:
`if position==1: if exitLong: position=0` /
`elif position==-1: if exitShort: position=0`. -/
def exitPhase (exitL exitS : Bool) (p : ℤ) : ℤ :=
  if p = 1 then (if exitL then 0 else p)
  else if p = -1 then (if exitS then 0 else p)
  else p

/-- The entry block of `tradingSystem.__calculation__`:
`if position==0: if goLong: position=1; elif goShort: position=-1`. -/
def entryPhase (goL goS : Bool) (p : ℤ) : ℤ :=
  if p = 0 then (if goL then 1 else if goS then -1 else p) else p

/-- The complete position update of one row of
`tradingSystem.__calculation__`: first the exit block, then the entry
block on the resulting position. -/
def posStep (exitL exitS goL goS : Bool) (p : ℤ) : ℤ :=
  entryPhase goL goS (exitPhase exitL exitS p)

/-- The mark-to-market update at the top of `tradingSystem.__calculation__`:
`this_return = position*(close - previous_close)/previous_close;`
`equity *= (1 + this_return)`. -/
def markToMarket (close previousClose : ℚ) (s : SysState) : ℚ :=
  s.equity * (1 + (s.position : ℚ) * (close - previousClose) / previousClose)

/-- One full row of `tradingSystem.__calculation__`: mark-to-market update,
then the debt-injection block
(`if equity<0: debt += -equity; debt += init_equity; equity = init_equity`),
then the exit and entry blocks.  The returned state holds the row's output
`[position, equity, debt]`. -/
def sysRow (initEquity close previousClose : ℚ) (exitL exitS goL goS : Bool)
    (s : SysState) : SysState :=
  let e1 := markToMarket close previousClose s
  let e2 := if e1 < 0 then initEquity else e1
  let d2 := if e1 < 0 then s.debt + (-1 * e1) + initEquity else s.debt
  { position := posStep exitL exitS goL goS s.position, equity := e2, debt := d2 }

/-- Python list indexing `data[...][row-1]` used by `__calculation__`: for
`row = 0` the index `-1` wraps around to the last row of the series of
length `len` (this happens only for the `Hold` system, whose
`__initialAnalysisPeriod__` is 0). -/
def prevIdx (len row : ℕ) : ℕ :=
  if row = 0 then len - 1 else row - 1

/-- The row loop of `run()` specialised to a trading system: starting from
the freshly initialised state, apply `sysRow` for each row index in turn and
collect each row's output state (the `[position, equity, debt]` output row).
-/
def sysRunFrom (step : ℕ → SysState → SysState) : List ℕ → SysState → List SysState
  | [], _ => []
  | r :: rs, s =>
    let s' := step r s
    s' :: sysRunFrom step rs s'

/-- A complete run of a trading system over a close series of length `len`
with decision predicates `exitL exitS goL goS` (one Boolean per row),
starting at the initial analysis offset.  `__init__` sets
`equity = init_equity`, `debt = 0`, `position = 0`. -/
def sysRun (initEquity : ℚ) (close : ℕ → ℚ) (exitL exitS goL goS : ℕ → Bool)
    (offset len : ℕ) : List SysState :=
  sysRunFrom
    (fun row s =>
      sysRow initEquity (close row) (close (prevIdx len row))
        (exitL row) (exitS row) (goL row) (goS row) s)
    (List.range' offset (len - offset)) ⟨0, initEquity, 0⟩

/-- The `Hold` system: `__goLong__` always true, every other decision method
keeps its base-class `False` default, and `__initialAnalysisPeriod__` is 0. -/
def holdRun (initEquity : ℚ) (close : ℕ → ℚ) (len : ℕ) : List SysState :=
  sysRun initEquity close (fun _ => false) (fun _ => false) (fun _ => true)
    (fun _ => false) 0 len

/-- The 20-row synthetic close series `[100, 101, ..., 119]` of the
round-trip scenario. -/
def specClose (n : ℕ) : ℚ := 100 + n

/-! The MA indicator (`price.py`, class `MA`)

`MA.__init__` sets `self.__lookback_values__ = []` and
`self.__sum__ = -999.0`; this `-999.0` is never reset before the seed loop
of `__calculation__` accumulates onto it with `+=`.  The iteration branch of
`__calculation__` calls `self.__variable__(data, row-1)` with only two
arguments although `__variable__(self, data, row, i)` requires three, so in
Python that branch raises a `TypeError` before touching any state; we embed
it as an `Except.error`. -/

/-- The state `(lookback_values, sum)` of an `MA` instance after the first
step of `__calculation__` (at `row == __initialAnalysisPeriod__(i) = N`):
starting from `([], -999.0)`, for each `r` in `0..N-1` the close is appended
to the buffer and added to the running sum. -/
def maSeed (close : ℕ → ℚ) (N : ℕ) : List ℚ × ℚ :=
  (List.range N).foldl (fun st r => (st.1 ++ [close r], st.2 + close r)) ([], -999)

/-- Embedding of `MA.__calculation__(data, i, row)` for a window of
`N = lookback_days[i]` days, as the source executes it: the row equal to the initial offset `N`
returns `__sum__ / __dof__(i)` with the seeded state, and every later row
enters the iteration branch, whose first statement
`x = self.__variable__(data, row-1)` raises
`TypeError` (the mandatory lookback-slot argument `i` is missing). -/
def maAt (close : ℕ → ℚ) (N row : ℕ) : Except String ℚ :=
  if row = N then .ok ((maSeed close N).2 / (N : ℚ))
  else .error ("TypeError: __variable__() takes exactly 4 arguments (3 given)")

/-! The MMAX and MMIN indicators (`price.py`, classes `MMAX`, `MMIN`)

These keep a `__lookback_values__` buffer and a running `__extreme__`.
State is the pair `(buffer, extreme)`. -/

/-- The first step of `MMAX.__calculation__` (at `row == N`): the buffer is
seeded with `__variable__(data, 0)`, the extreme set to it, and each later
value `__variable__(data, r)` for `r` in `1..N-1` is appended, replacing the
extreme whenever `__test__` (i.e. `extreme < value`) holds. -/
def mmaxSeed (v : ℕ → ℚ) (N : ℕ) : List ℚ × ℚ :=
  (List.range' 1 (N - 1)).foldl
    (fun st r => (st.1 ++ [v r], if st.2 < v r then v r else st.2)) ([v 0], v 0)

/-- The rescan loop of `MMAX.__calculation__`: `extreme = buffer[0]`, then
`for i in buffer: if extreme < i: extreme = i`. -/
def rescanMax (buf : List ℚ) : ℚ :=
  buf.foldl (fun e y => if e < y then y else e) (buf.headD 0)

/-- The iteration branch of `MMAX.__calculation__`: the new value
`x = __variable__(data, row-1)` is appended; if the buffer head (the value
about to be dropped) equals the current extreme, the head is popped and the
whole remaining buffer rescanned; otherwise the head is popped and only `x`
is compared against the extreme. -/
def mmaxStep (st : List ℚ × ℚ) (x : ℚ) : List ℚ × ℚ :=
  let buf1 := st.1 ++ [x]
  if buf1.headD 0 = st.2 then
    let buf2 := buf1.tail
    (buf2, rescanMax buf2)
  else
    (buf1.tail, if st.2 < x then x else st.2)

/-- The `(buffer, extreme)` state of an `MMAX` instance when
`__calculation__` returns at row `N + k`: the seed state at row `N`,
followed by `k` iteration steps; the step at row `r` appends
`__variable__(data, r-1)`. -/
def mmaxState (v : ℕ → ℚ) (N : ℕ) : ℕ → List ℚ × ℚ
  | 0 => mmaxSeed v N
  | k + 1 => mmaxStep (mmaxState v N k) (v (N + k))

/-- The output of the `MMAX` indicator at row `row ≥ N`: the extreme held
after the calculation for that row. -/
def mmaxAt (v : ℕ → ℚ) (N row : ℕ) : ℚ := (mmaxState v N (row - N)).2

/-- The first step of `MMIN.__calculation__`; identical to `MMAX` except
that `__test__(value, extreme)` is `extreme > value`. -/
def mminSeed (v : ℕ → ℚ) (N : ℕ) : List ℚ × ℚ :=
  (List.range' 1 (N - 1)).foldl
    (fun st r => (st.1 ++ [v r], if st.2 > v r then v r else st.2)) ([v 0], v 0)

/-- The rescan loop of `MMIN.__calculation__`. -/
def rescanMin (buf : List ℚ) : ℚ :=
  buf.foldl (fun e y => if e > y then y else e) (buf.headD 0)

/-- The iteration branch of `MMIN.__calculation__`. -/
def mminStep (st : List ℚ × ℚ) (x : ℚ) : List ℚ × ℚ :=
  let buf1 := st.1 ++ [x]
  if buf1.headD 0 = st.2 then
    let buf2 := buf1.tail
    (buf2, rescanMin buf2)
  else
    (buf1.tail, if st.2 > x then x else st.2)

/-- The `(buffer, extreme)` state of an `MMIN` instance at row `N + k`. -/
def mminState (v : ℕ → ℚ) (N : ℕ) : ℕ → List ℚ × ℚ
  | 0 => mminSeed v N
  | k + 1 => mminStep (mminState v N k) (v (N + k))

/-- The output of the `MMIN` indicator at row `row ≥ N`. -/
def mminAt (v : ℕ → ℚ) (N row : ℕ) : ℚ := (mminState v N (row - N)).2

/-- The lookback window the recurrences of `MMAX`/`MMIN` range over when
`__calculation__` returns at row `lo + N`: the `N` values at rows
`lo, ..., lo + N - 1`. -/
def window (v : ℕ → ℚ) (lo N : ℕ) : List ℚ := (List.range' lo N).map v

/-- The maximum of a list, scanning left to right (`0` for the empty list,
never used on one). -/
def listMax : List ℚ → ℚ
  | [] => 0
  | h :: t => t.foldl max h

/-- The minimum of a list, scanning left to right. -/
def listMin : List ℚ → ℚ
  | [] => 0
  | h :: t => t.foldl min h

/-- The brute-force window scan the specification describes for `MMAX`: the
maximum of the values over the lookback window. -/
def bruteForceMax (v : ℕ → ℚ) (lo N : ℕ) : ℚ := listMax (window v lo N)

/-- The brute-force window scan the specification describes for `MMIN`. -/
def bruteForceMin (v : ℕ → ℚ) (lo N : ℕ) : ℚ := listMin (window v lo N)

/-! The analysis driver (`timeseries.py`, class `timeSeriesAnalysis`)

An analysis object carries `lookback_days` and a (possibly empty) family of
preliminary analyses; the exponentially-weighted mix-in classes override
`__initialAnalysisPeriod__` to the constant `5`.  We embed the shape of one
analysis object, with its transitive preliminaries, as a finite tree. -/

/-- The dependency tree of one analysis: whether the class mixes in
`exponentialWeighting` (overriding `__initialAnalysisPeriod__`), its
`lookback_days`, and its preliminary analyses
(`self.preliminary_analyses.values()`). -/
inductive Analysis where
  | node (isEW : Bool) (lookbacks : List ℕ) (prelims : List Analysis)
  deriving Repr

/-- The `lookback_days` attribute. -/
def Analysis.lookbacks : Analysis → List ℕ
  | .node _ lbs _ => lbs

/-- The `preliminary_analyses` values. -/
def Analysis.prelims : Analysis → List Analysis
  | .node _ _ ps => ps

/-- Whether `exponentialWeighting` is mixed in. -/
def Analysis.isEW : Analysis → Bool
  | .node e _ _ => e

/-- The `max` loop of `__initialAnalysisPeriod__`:
`max = 0; for i in lookback: if max < i: max = i`. -/
def natMaxFold (l : List ℕ) : ℕ :=
  l.foldl (fun m x => if m < x then x else m) 0

mutual

/-- Embedding of `timeSeriesAnalysis.__initialAnalysisPeriod__(i)`: for the
exponentially-weighted classes the override returns `5`; with no preliminary
analyses it returns `lookback_days[i]`; otherwise it gathers, for every
preliminary analysis and every one of its lookback slots, that analysis's
own initial period, and takes the maximum. -/
def initialAnalysisPeriod : Analysis → ℕ → ℕ
  | .node true _ _, _ => 5
  | .node false lbs [], i => lbs.getD i 0
  | .node false _ (p :: ps), _ => natMaxFold (gatherOffsets (p :: ps))
termination_by a _ => (sizeOf a, 0, 0)

/-- The gathering loop of `__initialAnalysisPeriod__`:
`for analysis in preliminary_analyses.values():`
`  for i in xrange(0, len(analysis.lookback_days)):`
`    lookback.append(analysis.__initialAnalysisPeriod__(i))`. -/
def gatherOffsets : List Analysis → List ℕ
  | [] => []
  | p :: ps => slotOffsets p p.lookbacks.length ++ gatherOffsets ps
termination_by l => (sizeOf l, 0, 0)

/-- The inner slot loop: the initial periods of analysis `p` for slots
`0, ..., n-1`, in order. -/
def slotOffsets : Analysis → ℕ → List ℕ
  | _, 0 => []
  | p, n + 1 => slotOffsets p n ++ [initialAnalysisPeriod p n]
termination_by p n => (sizeOf p, 1, n)

end

mutual

/-- All analyses strictly below `a` in the preliminary-analysis tree
(the transitively preliminary analyses). -/
def descendants : Analysis → List Analysis
  | .node _ _ ps => ps ++ descendantsList ps

/-- The descendants of a list of analyses, including the analyses
themselves. -/
def descendantsList : List Analysis → List Analysis
  | [] => []
  | p :: ps => descendants p ++ descendantsList ps

end

/-- The maximum initial period of analysis `b` over all of its own lookback
slots. -/
def maxSlots (b : Analysis) : ℕ := natMaxFold (slotOffsets b b.lookbacks.length)

/-- The quantity the specification describes for the warm-up offset of an
indicator: the maximum warm-up period across itself and all transitively
preliminary indicators, taken over all of their lookback slots. -/
def specWarmUpMax (a : Analysis) : ℕ :=
  natMaxFold (((a :: descendants a).map maxSlots))

/-- The analysis trees the repository constructs: `lookback_days` is never
empty, every preliminary analysis is well formed, and the preliminary
analyses of an exponentially-weighted class are themselves exponentially
weighted (`EWVAR`/`EWCOV` build on `EWMA`/`EWMADAY`; the non-EW classes
`EWGRAD`/`EWGRADERR` may still have EW preliminaries). -/
inductive WFAnalysis : Analysis → Prop where
  | mk : ∀ (e : Bool) (lbs : List ℕ) (ps : List Analysis),
      lbs ≠ [] →
      (∀ p ∈ ps, WFAnalysis p) →
      (e = true → ∀ p ∈ ps, p.isEW = true) →
      WFAnalysis (.node e lbs ps)

/-- One output column of `timeSeriesAnalysis.run()` for lookback slot `i`:
`start`, one explicit empty marker (`""`, embedded as `none`) per row before
the initial offset, followed by `__calculation__`'s results for the rows
from the offset to the end of the input data. -/
def runColumn (f : ℕ → ℚ) (offset len : ℕ) : List (Option ℚ) :=
  List.replicate offset none ++ (List.range' offset (len - offset)).map (fun r => some (f r))

/-! Lookback validation (`timeseries.py`, `timeSeriesAnalysis.__init__`)

The method `__init__` runs
`for i in lookback_days: if i<1: print "Number of lookback days must be greater than zero."; break`
and then continues unconditionally: no exception is raised, so construction
always completes and `run()` remains callable.  We embed the loop as the
list of messages it prints, and `__init__` as returning the constructed
configuration together with those messages. -/

/-- The messages printed by the validation loop of
`timeSeriesAnalysis.__init__` (the loop `break`s after the first offending
entry). -/
def initLookbackMessages : List ℤ → List String
  | [] => []
  | i :: rest =>
    if i < 1 then ["Number of lookback days must be greater than zero."]
    else initLookbackMessages rest

/-- The record of fields `__init__` sets; only `lookback_days` matters
here. -/
structure TSAConfig where
  lookback_days : List ℤ
  deriving Repr, DecidableEq

/-- Embedding of `timeSeriesAnalysis.__init__` restricted to its lookback handling: it
prints the validation messages and then constructs the object regardless;
there is no code path that raises, so the result type is not optional. -/
def tsaInit (lbs : List ℤ) : List String × TSAConfig :=
  (initLookbackMessages lbs, ⟨lbs⟩)

/-! Row-at-date lookup (`strategy.py`, `strategyAnalysis.__rowAtDate__`)

Dates are embedded as integers (only comparisons are used).  The method
first checks the two boundary rows, then runs an unbounded `while True`
binary-search loop; we embed one pass of the loop body as a step function on
the `(lower, upper)` state, returning either the next state or the found
row. -/

/-- The boundary checks of `__rowAtDate__`: return `lower` when
`Date[lower] >= test_date`, `upper` when `Date[upper] <= test_date`,
otherwise fall through to the loop. -/
def rowAtDateBoundary (dates : ℕ → ℤ) (lower upper : ℕ) (t : ℤ) : Option ℕ :=
  if t ≤ dates lower then some lower
  else if dates upper ≤ t then some upper
  else none

/-- One pass of the `while True` loop of `__rowAtDate__`:
`middle = (lower + upper)/2` (Python 2 floor division), return `middle` when
`Date[middle-1] < test_date <= Date[middle]`, otherwise move `lower` or
`upper` to `middle`.  `Sum.inr` is a `return`, `Sum.inl` the next loop
state.  (`middle - 1` uses truncated natural subtraction; every state this
file evaluates has `middle ≥ 1`, where it agrees with Python.) -/
def rowAtDateStep (dates : ℕ → ℤ) (t : ℤ) : ℕ × ℕ → (ℕ × ℕ) ⊕ ℕ :=
  fun st =>
    let middle := (st.1 + st.2) / 2
    if dates (middle - 1) < t ∧ t ≤ dates middle then .inr middle
    else if dates middle < t then .inl (middle, st.2)
    else .inl (st.1, middle)

/-- The three-row ascending date column `[1, 2, 10]` used to exhibit the
non-terminating run of `__rowAtDate__`. -/
def loopDates (n : ℕ) : ℤ := ([1, 2, 10] : List ℤ).getD n 0

/-! Sortino ratio (`strategy.py`, `__SortinoRatio__` and
`__downsideSdevReturns__`)

The monthly returns of the rows of one analysis bin are embedded as a list
`xs : List ℚ` and the module constant `__monthly_risk_free_rate__` as a
parameter `rfr` (its Python value `1.05**(1/12) - 1` is irrational; nothing
below depends on it).  `math.sqrt` is kept out of the embedding by working
with the variance `var_x`; the returned standard deviation
`sqrt(12.0*var_x)` is zero exactly when `var_x` is zero. -/

/-- The first loop of `__downsideSdevReturns__` as written: rows with
`x < 0.0` are skipped (`continue`), so `n` counts the NON-negative returns
and `sum_x` accumulates `x - rfr` over them; `mean_x = sum_x/n` when
`n >= 1`, else `0.0`. -/
def downsideMeanCode (rfr : ℚ) (xs : List ℚ) : ℚ :=
  let ups := xs.filter (fun x => decide (¬ x < 0))
  if ups.length < 1 then 0
  else (ups.foldl (fun s x => s + (x - rfr)) 0) / (ups.length : ℚ)

/-- The variance `var_x` of `__downsideSdevReturns__` as written: the second loop
skips rows with `not x < 0.0`, accumulating squared residuals of the
negative excess returns around `mean_x` (the mean of the NON-negative excess
returns from the first loop), and divides by `n - 1` where `n` is the count
from the first loop; `var_x = 0.0` when `n < 2`. -/
def downsideVarCode (rfr : ℚ) (xs : List ℚ) : ℚ :=
  let ups := xs.filter (fun x => decide (¬ x < 0))
  let mean := downsideMeanCode rfr xs
  let res := (xs.filter (fun x => decide (x < 0))).foldl
    (fun s x => s + ((x - rfr) - mean) * ((x - rfr) - mean)) 0
  if ups.length < 2 then 0 else res / ((ups.length : ℚ) - 1)

/-- The downside-only sample variance the specification describes: the
sample variance (residuals divided by `count - 1`) of the excess monthly
returns restricted to the NEGATIVE monthly returns, `0` when fewer than two
such returns exist. -/
def downsideVarSpec (rfr : ℚ) (xs : List ℚ) : ℚ :=
  let downs := (xs.filter (fun x => decide (x < 0))).map (fun x => x - rfr)
  if downs.length < 2 then 0
  else
    let mean := (downs.foldl (· + ·) 0) / (downs.length : ℚ)
    ((downs.foldl (fun s x => s + (x - mean) * (x - mean)) 0)) / ((downs.length : ℚ) - 1)

/-- Whether `__SortinoRatio__` returns the `"NaN"` sentinel: it does exactly
when `sdev = sqrt(12.0*var_x) == 0.0`, i.e. when `var_x` is zero. -/
def sortinoIsNaN (rfr : ℚ) (xs : List ℚ) : Bool :=
  downsideVarCode rfr xs = 0

/-- The annualised mean used by `__SortinoRatio__`: it calls
`__meanSdevReturns__(input, bin_limits, log)` with the `flavour` argument
left at its default `"Plain"`, so no risk-free rate is subtracted:
`12.0 * (sum of the returns / n)`. -/
def sortinoMeanCode (xs : List ℚ) : ℚ :=
  12 * ((xs.foldl (· + ·) 0) / (xs.length : ℚ))

/-- The annualised mean monthly excess return the specification describes
for the Sortino numerator: each monthly return less the monthly risk-free
rate. -/
def sortinoMeanSpec (rfr : ℚ) (xs : List ℚ) : ℚ :=
  12 * (((xs.map (fun x => x - rfr)).foldl (· + ·) 0) / (xs.length : ℚ))

/-! Auxiliary lemmas, followed by the theorems settling the claims. -/

theorem maxIf (a b : ℚ) : (if a < b then b else a) = max a b := by
  rcases lt_or_le a b with h | h
  · rw [if_pos h, max_eq_right h.le]
  · rw [if_neg (not_lt.mpr h), max_eq_left h]

theorem minIf (a b : ℚ) : (if a > b then b else a) = min a b := by
  rcases lt_or_le b a with h | h
  · rw [if_pos h, min_eq_right h.le]
  · rw [if_neg (not_lt.mpr h), min_eq_left h]

theorem foldl_max_max (l : List ℚ) : ∀ a b, l.foldl max (max a b) = max a (l.foldl max b) := by
  induction l with
  | nil => intro a b; rfl
  | cons c t ih =>
    intro a b
    show t.foldl max (max (max a b) c) = max a ((c :: t).foldl max b)
    rw [max_assoc, ih]
    rfl

theorem listMax_cons (h : ℚ) (t : List ℚ) (ht : t ≠ []) :
    listMax (h :: t) = max h (listMax t) := by
  obtain ⟨c, t', rfl⟩ := List.exists_cons_of_ne_nil ht
  show t'.foldl max (max h c) = max h (t'.foldl max c)
  exact foldl_max_max t' h c

theorem listMax_append_sing (l : List ℚ) (x : ℚ) (hl : l ≠ []) :
    listMax (l ++ [x]) = max (listMax l) x := by
  obtain ⟨h, t, rfl⟩ := List.exists_cons_of_ne_nil hl
  show (t ++ [x]).foldl max h = max (t.foldl max h) x
  rw [List.foldl_append]
  rfl

theorem rescanMax_eq (l : List ℚ) (hl : l ≠ []) : rescanMax l = listMax l := by
  obtain ⟨h, t, rfl⟩ := List.exists_cons_of_ne_nil hl
  have hfun : (fun e y : ℚ => if e < y then y else e) = max := by
    funext a b; exact maxIf a b
  show ((h :: t).foldl (fun e y => if e < y then y else e) ((h :: t).headD 0)) = listMax (h :: t)
  rw [hfun]
  show t.foldl max (max h h) = listMax (h :: t)
  rw [max_self]
  rfl

theorem listMax_of_head_ne (h : ℚ) (t : List ℚ)
    (hne : h ≠ listMax (h :: t)) : t ≠ [] ∧ listMax (h :: t) = listMax t := by
  rcases eq_or_ne t [] with rfl | ht
  · exact absurd rfl hne
  · refine ⟨ht, ?_⟩
    rw [listMax_cons h t ht] at hne ⊢
    rcases max_choice h (listMax t) with hm | hm
    · exact absurd hm.symm hne
    · exact hm

theorem window_concat (v : ℕ → ℚ) (lo n : ℕ) :
    window v lo (n + 1) = window v lo n ++ [v (lo + n)] := by
  unfold window
  rw [List.range'_concat]
  simp

theorem window_cons (v : ℕ → ℚ) (lo N : ℕ) (hN : 1 ≤ N) :
    window v lo N = v lo :: window v (lo + 1) (N - 1) := by
  obtain ⟨m, rfl⟩ := Nat.exists_eq_add_of_le hN
  unfold window
  rw [Nat.add_comm 1 m, List.range'_succ]
  simp

theorem window_ne_nil (v : ℕ → ℚ) (lo N : ℕ) (hN : 1 ≤ N) : window v lo N ≠ [] := by
  rw [window_cons v lo N hN]
  exact List.cons_ne_nil _ _

theorem mmaxStep_window (w : List ℚ) (x : ℚ) (hw : w ≠ []) :
    mmaxStep (w, listMax w) x = (w.tail ++ [x], listMax (w.tail ++ [x])) := by
  obtain ⟨h, t, rfl⟩ := List.exists_cons_of_ne_nil hw
  unfold mmaxStep
  by_cases hh : ((h :: t ++ [x]).headD 0) = listMax (h :: t)
  · rw [if_pos hh]
    show (t ++ [x], rescanMax (t ++ [x])) = ((h :: t).tail ++ [x], listMax ((h :: t).tail ++ [x]))
    rw [rescanMax_eq (t ++ [x]) (by simp)]
    rfl
  · rw [if_neg hh]
    have hh' : h ≠ listMax (h :: t) := by simpa using hh
    obtain ⟨ht, hmax⟩ := listMax_of_head_ne h t hh'
    have hthis : listMax (t ++ [x]) = max (listMax t) x := listMax_append_sing t x ht
    show (t ++ [x], if listMax (h :: t) < x then x else listMax (h :: t))
        = ((h :: t).tail ++ [x], listMax ((h :: t).tail ++ [x]))
    rw [maxIf (listMax (h :: t)) x, hmax]
    show (t ++ [x], max (listMax t) x) = (t ++ [x], listMax (t ++ [x]))
    rw [hthis]

theorem mmaxSeed_aux (v : ℕ → ℚ) (m : ℕ) :
    (List.range' 1 m).foldl
      (fun st r => (st.1 ++ [v r], if st.2 < v r then v r else st.2)) ([v 0], v 0)
      = (window v 0 (m + 1), listMax (window v 0 (m + 1))) := by
  induction m with
  | zero =>
    simp [window, listMax]
  | succ m ih =>
    rw [List.range'_concat, List.foldl_append, ih]
    simp only [List.foldl_cons, List.foldl_nil]
    rw [maxIf (listMax (window v 0 (m + 1))) (v (1 + 1 * m))]
    have h1 : (1 + 1 * m) = 0 + (m + 1) := by ring
    rw [h1]
    rw [← listMax_append_sing (window v 0 (m + 1)) (v (0 + (m + 1)))
      (window_ne_nil v 0 (m + 1) (Nat.succ_le_succ (Nat.zero_le m)))]
    rw [← window_concat v 0 (m + 1)]

theorem mmaxSeed_eq (v : ℕ → ℚ) (N : ℕ) (hN : 1 ≤ N) :
    mmaxSeed v N = (window v 0 N, listMax (window v 0 N)) := by
  obtain ⟨m, rfl⟩ := Nat.exists_eq_add_of_le hN
  unfold mmaxSeed
  have h1 : 1 + m - 1 = m := by omega
  rw [h1, mmaxSeed_aux v m]
  have h2 : m + 1 = 1 + m := by omega
  rw [h2]

theorem mmaxState_eq (v : ℕ → ℚ) (N : ℕ) (hN : 1 ≤ N) :
    ∀ k, mmaxState v N k = (window v k N, listMax (window v k N)) := by
  intro k
  induction k with
  | zero => rw [mmaxState, mmaxSeed_eq v N hN]
  | succ k ih =>
    rw [mmaxState, ih, mmaxStep_window _ _ (window_ne_nil v k N hN)]
    have htail : (window v k N).tail ++ [v (N + k)] = window v (k + 1) N := by
      rw [window_cons v k N hN]
      show window v (k + 1) (N - 1) ++ [v (N + k)] = window v (k + 1) N
      have h1 : N + k = (k + 1) + (N - 1) := by omega
      rw [h1, ← window_concat v (k + 1) (N - 1)]
      have h2 : N - 1 + 1 = N := by omega
      rw [h2]
    rw [htail]

theorem mmax_correct (v : ℕ → ℚ) (N r : ℕ) (hN : 1 ≤ N) (_hr : N ≤ r) :
    mmaxAt v N r = bruteForceMax v (r - N) N := by
  unfold mmaxAt bruteForceMax
  rw [mmaxState_eq v N hN (r - N)]

theorem foldl_min_min (l : List ℚ) : ∀ a b, l.foldl min (min a b) = min a (l.foldl min b) := by
  induction l with
  | nil => intro a b; rfl
  | cons c t ih =>
    intro a b
    show t.foldl min (min (min a b) c) = min a ((c :: t).foldl min b)
    rw [min_assoc, ih]
    rfl

theorem listMin_cons (h : ℚ) (t : List ℚ) (ht : t ≠ []) :
    listMin (h :: t) = min h (listMin t) := by
  obtain ⟨c, t', rfl⟩ := List.exists_cons_of_ne_nil ht
  show t'.foldl min (min h c) = min h (t'.foldl min c)
  exact foldl_min_min t' h c

theorem listMin_append_sing (l : List ℚ) (x : ℚ) (hl : l ≠ []) :
    listMin (l ++ [x]) = min (listMin l) x := by
  obtain ⟨h, t, rfl⟩ := List.exists_cons_of_ne_nil hl
  show (t ++ [x]).foldl min h = min (t.foldl min h) x
  rw [List.foldl_append]
  rfl

theorem rescanMin_eq (l : List ℚ) (hl : l ≠ []) : rescanMin l = listMin l := by
  obtain ⟨h, t, rfl⟩ := List.exists_cons_of_ne_nil hl
  have hfun : (fun e y : ℚ => if e > y then y else e) = min := by
    funext a b; exact minIf a b
  show ((h :: t).foldl (fun e y => if e > y then y else e) ((h :: t).headD 0)) = listMin (h :: t)
  rw [hfun]
  show t.foldl min (min h h) = listMin (h :: t)
  rw [min_self]
  rfl

theorem listMin_of_head_ne (h : ℚ) (t : List ℚ)
    (hne : h ≠ listMin (h :: t)) : t ≠ [] ∧ listMin (h :: t) = listMin t := by
  rcases eq_or_ne t [] with rfl | ht
  · exact absurd rfl hne
  · refine ⟨ht, ?_⟩
    rw [listMin_cons h t ht] at hne ⊢
    rcases min_choice h (listMin t) with hm | hm
    · exact absurd hm.symm hne
    · exact hm

theorem mminStep_window (w : List ℚ) (x : ℚ) (hw : w ≠ []) :
    mminStep (w, listMin w) x = (w.tail ++ [x], listMin (w.tail ++ [x])) := by
  obtain ⟨h, t, rfl⟩ := List.exists_cons_of_ne_nil hw
  unfold mminStep
  by_cases hh : ((h :: t ++ [x]).headD 0) = listMin (h :: t)
  · rw [if_pos hh]
    show (t ++ [x], rescanMin (t ++ [x])) = ((h :: t).tail ++ [x], listMin ((h :: t).tail ++ [x]))
    rw [rescanMin_eq (t ++ [x]) (by simp)]
    rfl
  · rw [if_neg hh]
    have hh' : h ≠ listMin (h :: t) := by simpa using hh
    obtain ⟨ht, hmin⟩ := listMin_of_head_ne h t hh'
    have hthis : listMin (t ++ [x]) = min (listMin t) x := listMin_append_sing t x ht
    show (t ++ [x], if listMin (h :: t) > x then x else listMin (h :: t))
        = ((h :: t).tail ++ [x], listMin ((h :: t).tail ++ [x]))
    rw [minIf (listMin (h :: t)) x, hmin]
    show (t ++ [x], min (listMin t) x) = (t ++ [x], listMin (t ++ [x]))
    rw [hthis]

theorem mminSeed_aux (v : ℕ → ℚ) (m : ℕ) :
    (List.range' 1 m).foldl
      (fun st r => (st.1 ++ [v r], if st.2 > v r then v r else st.2)) ([v 0], v 0)
      = (window v 0 (m + 1), listMin (window v 0 (m + 1))) := by
  induction m with
  | zero =>
    simp [window, listMin]
  | succ m ih =>
    rw [List.range'_concat, List.foldl_append, ih]
    simp only [List.foldl_cons, List.foldl_nil]
    rw [minIf (listMin (window v 0 (m + 1))) (v (1 + 1 * m))]
    have h1 : (1 + 1 * m) = 0 + (m + 1) := by ring
    rw [h1]
    rw [← listMin_append_sing (window v 0 (m + 1)) (v (0 + (m + 1)))
      (window_ne_nil v 0 (m + 1) (Nat.succ_le_succ (Nat.zero_le m)))]
    rw [← window_concat v 0 (m + 1)]

theorem mminSeed_eq (v : ℕ → ℚ) (N : ℕ) (hN : 1 ≤ N) :
    mminSeed v N = (window v 0 N, listMin (window v 0 N)) := by
  obtain ⟨m, rfl⟩ := Nat.exists_eq_add_of_le hN
  unfold mminSeed
  have h1 : 1 + m - 1 = m := by omega
  rw [h1, mminSeed_aux v m]
  have h2 : m + 1 = 1 + m := by omega
  rw [h2]

theorem mminState_eq (v : ℕ → ℚ) (N : ℕ) (hN : 1 ≤ N) :
    ∀ k, mminState v N k = (window v k N, listMin (window v k N)) := by
  intro k
  induction k with
  | zero => rw [mminState, mminSeed_eq v N hN]
  | succ k ih =>
    rw [mminState, ih, mminStep_window _ _ (window_ne_nil v k N hN)]
    have htail : (window v k N).tail ++ [v (N + k)] = window v (k + 1) N := by
      rw [window_cons v k N hN]
      show window v (k + 1) (N - 1) ++ [v (N + k)] = window v (k + 1) N
      have h1 : N + k = (k + 1) + (N - 1) := by omega
      rw [h1, ← window_concat v (k + 1) (N - 1)]
      have h2 : N - 1 + 1 = N := by omega
      rw [h2]
    rw [htail]

theorem natIfMax (m x : ℕ) : (if m < x then x else m) = max m x := by
  rcases lt_or_le m x with h | h
  · rw [if_pos h, max_eq_right h.le]
  · rw [if_neg (not_lt.mpr h), max_eq_left h]

theorem natMaxFold_eq_foldl_max (l : List ℕ) : natMaxFold l = l.foldl max 0 := by
  unfold natMaxFold
  have hfun : (fun m x : ℕ => if m < x then x else m) = max := by
    funext a b; exact natIfMax a b
  rw [hfun]

theorem nat_foldl_max_max (l : List ℕ) : ∀ a b, l.foldl max (max a b) = max a (l.foldl max b) := by
  induction l with
  | nil => intro a b; rfl
  | cons c t ih =>
    intro a b
    show t.foldl max (max (max a b) c) = max a ((c :: t).foldl max b)
    rw [max_assoc, ih]
    rfl

theorem nat_foldl_max_acc (l : List ℕ) (a : ℕ) : l.foldl max a = max a (l.foldl max 0) := by
  have h0 : max a 0 = a := max_eq_left (Nat.zero_le a)
  calc l.foldl max a = l.foldl max (max a 0) := by rw [h0]
    _ = max a (l.foldl max 0) := nat_foldl_max_max l a 0

theorem natMaxFold_append (l1 l2 : List ℕ) :
    natMaxFold (l1 ++ l2) = max (natMaxFold l1) (natMaxFold l2) := by
  rw [natMaxFold_eq_foldl_max, natMaxFold_eq_foldl_max, natMaxFold_eq_foldl_max,
    List.foldl_append, nat_foldl_max_acc]

theorem le_natMaxFold (l : List ℕ) (x : ℕ) (hx : x ∈ l) : x ≤ natMaxFold l := by
  induction l with
  | nil => cases hx
  | cons h t ih =>
    rw [show h :: t = [h] ++ t from rfl, natMaxFold_append]
    rcases List.mem_cons.mp hx with rfl | hx'
    · refine le_trans ?_ (le_max_left _ _)
      show x ≤ natMaxFold [x]
      rw [natMaxFold_eq_foldl_max]
      simp
    · exact le_trans (ih hx') (le_max_right _ _)

theorem natMaxFold_le (l : List ℕ) (c : ℕ) (hc : ∀ x ∈ l, x ≤ c) : natMaxFold l ≤ c := by
  induction l with
  | nil =>
    show natMaxFold [] ≤ c
    rw [natMaxFold_eq_foldl_max]
    exact Nat.zero_le c
  | cons h t ih =>
    rw [show h :: t = [h] ++ t from rfl, natMaxFold_append]
    refine max_le ?_ (ih fun x hx => hc x (List.mem_cons_of_mem h hx))
    rw [natMaxFold_eq_foldl_max]
    simpa using hc h (List.mem_cons_self h t)

theorem natMaxFold_all_eq (l : List ℕ) (c : ℕ) (hl : l ≠ []) (hc : ∀ x ∈ l, x = c) :
    natMaxFold l = c := by
  obtain ⟨h, t, rfl⟩ := List.exists_cons_of_ne_nil hl
  refine le_antisymm (natMaxFold_le _ c fun x hx => (hc x hx).le) ?_
  have hmem := le_natMaxFold (h :: t) h (List.mem_cons_self h t)
  exact le_of_eq_of_le (hc h (List.mem_cons_self h t)).symm hmem

theorem slotOffsets_length (p : Analysis) (n : ℕ) : (slotOffsets p n).length = n := by
  induction n with
  | zero => rw [slotOffsets]; rfl
  | succ n ih => rw [slotOffsets]; simp [ih]

theorem slotOffsets_mem (p : Analysis) (n : ℕ) (x : ℕ) (hx : x ∈ slotOffsets p n) :
    ∃ j, j < n ∧ x = initialAnalysisPeriod p j := by
  induction n with
  | zero => rw [slotOffsets] at hx; cases hx
  | succ n ih =>
    rw [slotOffsets] at hx
    rcases List.mem_append.mp hx with hx' | hx'
    · obtain ⟨j, hj, hxj⟩ := ih hx'
      exact ⟨j, Nat.lt_succ_of_lt hj, hxj⟩
    · exact ⟨n, Nat.lt_succ_self n, List.mem_singleton.mp hx'⟩

theorem slotOffsets_ne_nil (p : Analysis) (n : ℕ) (hn : 1 ≤ n) : slotOffsets p n ≠ [] := by
  intro h
  have := slotOffsets_length p n
  rw [h] at this
  simp at this
  omega

theorem initialAnalysisPeriod_ew (lbs : List ℕ) (ps : List Analysis) (i : ℕ) :
    initialAnalysisPeriod (.node true lbs ps) i = 5 := by
  rw [initialAnalysisPeriod]

theorem maxSlots_ew (a : Analysis) (hew : a.isEW = true) (hlbs : a.lookbacks ≠ []) :
    maxSlots a = 5 := by
  obtain ⟨e, lbs, ps⟩ := a
  cases e
  · simp [Analysis.isEW] at hew
  · unfold maxSlots
    refine natMaxFold_all_eq _ 5 (slotOffsets_ne_nil _ _ ?_) ?_
    · have : lbs ≠ [] := hlbs
      simpa [Analysis.lookbacks] using List.length_pos.mpr this
    · intro x hx
      obtain ⟨j, _, rfl⟩ := slotOffsets_mem _ _ x hx
      exact initialAnalysisPeriod_ew lbs ps j

theorem natMaxFold_cons (x : ℕ) (l : List ℕ) : natMaxFold (x :: l) = max x (natMaxFold l) := by
  rw [natMaxFold_eq_foldl_max, natMaxFold_eq_foldl_max]
  show l.foldl max (max 0 x) = max x (l.foldl max 0)
  rw [Nat.zero_max]
  exact nat_foldl_max_acc l x

theorem natMaxFold_gather (ps : List Analysis) :
    natMaxFold (gatherOffsets ps) = natMaxFold (ps.map maxSlots) := by
  induction ps with
  | nil => rw [gatherOffsets]; rfl
  | cons p ps ih =>
    rw [gatherOffsets, natMaxFold_append, ih, List.map_cons, natMaxFold_cons]
    rfl

theorem initialAnalysisPeriod_internal (lbs : List ℕ) (ps : List Analysis)
    (hps : ps ≠ []) (i : ℕ) :
    initialAnalysisPeriod (.node false lbs ps) i = natMaxFold (gatherOffsets ps) := by
  obtain ⟨p, ps', rfl⟩ := List.exists_cons_of_ne_nil hps
  rw [initialAnalysisPeriod]

theorem WFAnalysis.lookbacks_ne_nil (a : Analysis) (h : WFAnalysis a) :
    a.lookbacks ≠ [] := by
  cases h
  assumption

theorem maxSlots_internal (lbs : List ℕ) (ps : List Analysis)
    (hlbs : lbs ≠ []) (hps : ps ≠ []) :
    maxSlots (.node false lbs ps) = natMaxFold (gatherOffsets ps) := by
  unfold maxSlots
  refine natMaxFold_all_eq _ _ (slotOffsets_ne_nil _ _ ?_) ?_
  · simpa [Analysis.lookbacks] using List.length_pos.mpr hlbs
  · intro x hx
    obtain ⟨j, _, rfl⟩ := slotOffsets_mem _ _ x hx
    exact initialAnalysisPeriod_internal lbs ps hps j

theorem mem_descendantsList (ps : List Analysis) (b : Analysis)
    (hb : b ∈ descendantsList ps) : ∃ p ∈ ps, b ∈ descendants p := by
  induction ps with
  | nil => rw [descendantsList] at hb; cases hb
  | cons p ps ih =>
    rw [descendantsList] at hb
    rcases List.mem_append.mp hb with hb' | hb'
    · exact ⟨p, List.mem_cons_self p ps, hb'⟩
    · obtain ⟨q, hq, hbq⟩ := ih hb'
      exact ⟨q, List.mem_cons_of_mem p hq, hbq⟩

theorem maxSlots_descendants_le (a : Analysis) (hwf : WFAnalysis a) :
    ∀ b ∈ descendants a, maxSlots b ≤ maxSlots a := by
  induction hwf with
  | mk e lbs ps hlbs hps hew ih =>
    intro b hb
    rw [descendants] at hb
    have hstep : ∀ p ∈ ps, maxSlots p ≤ maxSlots (Analysis.node e lbs ps) := by
      intro p hp
      cases e
      · rcases eq_or_ne ps [] with rfl | hps'
        · cases hp
        · rw [maxSlots_internal lbs ps hlbs hps', natMaxFold_gather]
          exact le_natMaxFold _ _ (List.mem_map_of_mem maxSlots hp)
      · rw [maxSlots_ew (.node true lbs ps) rfl hlbs,
          maxSlots_ew p (hew rfl p hp) (WFAnalysis.lookbacks_ne_nil p (hps p hp))]
    rcases List.mem_append.mp hb with hdir | hdeep
    · exact hstep b hdir
    · obtain ⟨p, hp, hbp⟩ := mem_descendantsList ps b hdeep
      exact le_trans (ih p hp b hbp) (hstep p hp)

theorem specWarmUpMax_eq_maxSlots (a : Analysis) (hwf : WFAnalysis a) :
    specWarmUpMax a = maxSlots a := by
  unfold specWarmUpMax
  rw [List.map_cons, natMaxFold_cons]
  refine max_eq_left (natMaxFold_le _ _ ?_)
  intro x hx
  obtain ⟨b, hb, rfl⟩ := List.mem_map.mp hx
  exact maxSlots_descendants_le a hwf b hb

theorem offset_eq_specWarmUpMax (a : Analysis) (hwf : WFAnalysis a)
    (hp : a.prelims ≠ []) (i : ℕ) :
    initialAnalysisPeriod a i = specWarmUpMax a := by
  rw [specWarmUpMax_eq_maxSlots a hwf]
  obtain ⟨e, lbs, ps⟩ := a
  have hlbs : lbs ≠ [] := WFAnalysis.lookbacks_ne_nil _ hwf
  have hps : ps ≠ [] := hp
  cases e
  · rw [initialAnalysisPeriod_internal lbs ps hps i, maxSlots_internal lbs ps hlbs hps]
  · rw [initialAnalysisPeriod_ew lbs ps i, maxSlots_ew (.node true lbs ps) rfl hlbs]

theorem runColumn_before (f : ℕ → ℚ) (offset len r : ℕ) (hr : r < offset) :
    (runColumn f offset len)[r]? = some none := by
  unfold runColumn
  rw [List.getElem?_append, if_pos (by simpa using hr)]
  simp [List.getElem?_replicate, hr]

theorem runColumn_after (f : ℕ → ℚ) (offset len r : ℕ) (h1 : offset ≤ r) (h2 : r < len) :
    (runColumn f offset len)[r]? = some (some (f r)) := by
  unfold runColumn
  rw [List.getElem?_append, if_neg (by simp; omega)]
  rw [List.getElem?_map, List.getElem?_range']
  · simp only [List.length_replicate, Option.map_some]
    have harg : offset + 1 * (r - offset) = r := by omega
    rw [harg]
    rfl
  · simp
    omega

theorem sysRow_equity_eq (initEquity close previousClose : ℚ) (b1 b2 b3 b4 : Bool)
    (s : SysState) :
    (sysRow initEquity close previousClose b1 b2 b3 b4 s).equity =
      if markToMarket close previousClose s < 0 then initEquity
      else markToMarket close previousClose s := rfl

theorem sysRow_debt_eq (initEquity close previousClose : ℚ) (b1 b2 b3 b4 : Bool)
    (s : SysState) :
    (sysRow initEquity close previousClose b1 b2 b3 b4 s).debt =
      if markToMarket close previousClose s < 0 then
        s.debt + (-1 * markToMarket close previousClose s) + initEquity
      else s.debt := rfl

theorem sysRow_equity_nonneg (initEquity close previousClose : ℚ) (b1 b2 b3 b4 : Bool)
    (s : SysState) (hinit : 0 ≤ initEquity) :
    0 ≤ (sysRow initEquity close previousClose b1 b2 b3 b4 s).equity := by
  rw [sysRow_equity_eq]
  by_cases hneg : markToMarket close previousClose s < 0
  · rwa [if_pos hneg]
  · rw [if_neg hneg]
    exact le_of_not_lt hneg

theorem sysRow_debt_le (initEquity close previousClose : ℚ) (b1 b2 b3 b4 : Bool)
    (s : SysState) (hinit : 0 ≤ initEquity) :
    s.debt ≤ (sysRow initEquity close previousClose b1 b2 b3 b4 s).debt := by
  rw [sysRow_debt_eq]
  by_cases hneg : markToMarket close previousClose s < 0
  · rw [if_pos hneg]
    nlinarith
  · rw [if_neg hneg]

theorem sysRunFrom_mem (step : ℕ → SysState → SysState) :
    ∀ (rows : List ℕ) (s : SysState) (t : SysState),
      t ∈ sysRunFrom step rows s → ∃ r u, t = step r u := by
  intro rows
  induction rows with
  | nil => intro s t ht; cases ht
  | cons r rs ih =>
    intro s t ht
    rw [sysRunFrom] at ht
    rcases List.mem_cons.mp ht with rfl | ht'
    · exact ⟨r, s, rfl⟩
    · exact ih (step r s) t ht'

theorem sysRunFrom_debt_chain (step : ℕ → SysState → SysState)
    (hstep : ∀ r s, s.debt ≤ (step r s).debt) :
    ∀ (rows : List ℕ) (s : SysState),
      List.Chain' (fun a b => a.debt ≤ b.debt) (s :: sysRunFrom step rows s) := by
  intro rows
  induction rows with
  | nil =>
    intro s
    rw [sysRunFrom]
    exact List.chain'_singleton s
  | cons r rs ih =>
    intro s
    rw [sysRunFrom]
    exact List.Chain'.cons (hstep r s) (ih (step r s))

/-- C1: On the 20-row close series `[100, ..., 119]` with a 5-day window,
`MA.__calculation__`'s first valid output (row 5) is `(510 - 999)/5 = -489/5`
— the `-999.0` initialisation of `__sum__` is accumulated into the seed — and
not the claimed mean `102` of the first five closes; every later row,
including row 10 where the claim expects `107`, raises a `TypeError` because
the iteration branch calls `__variable__(data, row-1)` without the mandatory
lookback-slot argument. -/
theorem ma_seed_polluted_and_iteration_raises :
    maAt specClose 5 5 = .ok (-489 / 5)
    ∧ maAt specClose 5 5 ≠ .ok ((100 + 101 + 102 + 103 + 104) / 5)
    ∧ maAt specClose 5 10 =
        .error "TypeError: __variable__() takes exactly 4 arguments (3 given)"
    ∧ maAt specClose 5 10 ≠ .ok 107 := by
  refine ⟨?_, ?_, rfl, ?_⟩
  · show Except.ok ((maSeed specClose 5).2 / (5 : ℚ)) = Except.ok (-489 / 5)
    have h : (maSeed specClose 5).2 = -489 := by
      norm_num [maSeed, specClose, List.range_succ]
    rw [h]
  · intro h
    have h1 : (maSeed specClose 5).2 / (5 : ℚ) = (100 + 101 + 102 + 103 + 104) / 5 := by
      injection h
    have h2 : (maSeed specClose 5).2 = -489 := by
      norm_num [maSeed, specClose, List.range_succ]
    rw [h2] at h1
    norm_num at h1
  · intro h
    exact Except.noConfusion h

/-- C2: For every decision-flag combination and every position in
`{-1, 0, 1}`, one row of the `tradingSystem` state machine keeps the
position in `{-1, 0, 1}`; the row's position update is exactly the exit
block followed by the entry block; the exit block either leaves the position
unchanged or moves it to 0; if the exit block leaves a nonzero position the
entry block does nothing; and a row can only end `-1` from `+1` (or `+1`
from `-1`) by first passing through 0 in the exit block. -/
theorem position_exclusive (exitL exitS goL goS : Bool) (p : ℤ)
    (h : p = -1 ∨ p = 0 ∨ p = 1) :
    (posStep exitL exitS goL goS p = -1 ∨ posStep exitL exitS goL goS p = 0 ∨
      posStep exitL exitS goL goS p = 1)
    ∧ posStep exitL exitS goL goS p = entryPhase goL goS (exitPhase exitL exitS p)
    ∧ (exitPhase exitL exitS p = 0 ∨ exitPhase exitL exitS p = p)
    ∧ (exitPhase exitL exitS p ≠ 0 →
        posStep exitL exitS goL goS p = exitPhase exitL exitS p)
    ∧ (p = 1 → posStep exitL exitS goL goS p = -1 → exitPhase exitL exitS p = 0)
    ∧ (p = -1 → posStep exitL exitS goL goS p = 1 → exitPhase exitL exitS p = 0) := by
  rcases h with rfl | rfl | rfl <;>
    cases exitL <;> cases exitS <;> cases goL <;> cases goS <;> decide

theorem position_exclusive_witness :
    ((1 : ℤ) = -1 ∨ (1 : ℤ) = 0 ∨ (1 : ℤ) = 1)
    ∧ ((posStep true false false true 1 = -1 ∨ posStep true false false true 1 = 0 ∨
        posStep true false false true 1 = 1)
      ∧ posStep true false false true 1 = entryPhase false true (exitPhase true false 1)
      ∧ (exitPhase true false 1 = 0 ∨ exitPhase true false 1 = 1)
      ∧ (exitPhase true false 1 ≠ 0 →
          posStep true false false true 1 = exitPhase true false 1)
      ∧ ((1 : ℤ) = 1 → posStep true false false true 1 = -1 → exitPhase true false 1 = 0)
      ∧ ((1 : ℤ) = -1 → posStep true false false true 1 = 1 → exitPhase true false 1 = 0)) :=
  ⟨by decide, position_exclusive true false false true 1 (by decide)⟩

/-- C3: On any row whose mark-to-market equity is strictly negative, the
debt-injection block resets the output equity to exactly `init_equity` and
increases debt by exactly `init_equity` plus the absolute value of the
pre-injection equity; consequently (for the non-negative initial equity the
system is given) every output equity — on every row of every run — is
non-negative. -/
theorem equity_injection_resets (initEquity : ℚ) (hinit : 0 ≤ initEquity)
    (close previousClose : ℚ) (eL eS gL gS : Bool) (s : SysState) :
    (markToMarket close previousClose s < 0 →
      (sysRow initEquity close previousClose eL eS gL gS s).equity = initEquity ∧
      (sysRow initEquity close previousClose eL eS gL gS s).debt =
        s.debt + initEquity + |markToMarket close previousClose s|)
    ∧ 0 ≤ (sysRow initEquity close previousClose eL eS gL gS s).equity
    ∧ ∀ (closeF : ℕ → ℚ) (eLF eSF gLF gSF : ℕ → Bool) (offset len : ℕ)
        (t : SysState), t ∈ sysRun initEquity closeF eLF eSF gLF gSF offset len →
          0 ≤ t.equity := by
  refine ⟨?_, sysRow_equity_nonneg _ _ _ _ _ _ _ _ hinit, ?_⟩
  · intro hneg
    rw [sysRow_equity_eq, sysRow_debt_eq, if_pos hneg, if_pos hneg, abs_of_neg hneg]
    exact ⟨rfl, by ring⟩
  · intro closeF eLF eSF gLF gSF offset len t ht
    obtain ⟨r, u, rfl⟩ := sysRunFrom_mem _ _ _ _ ht
    exact sysRow_equity_nonneg _ _ _ _ _ _ _ _ hinit

theorem equity_injection_resets_witness :
    (0 : ℚ) ≤ 100
    ∧ ((markToMarket (-250) 100 ⟨1, 100, 0⟩ < 0 →
        (sysRow 100 (-250) 100 false false false false ⟨1, 100, 0⟩).equity = 100 ∧
        (sysRow 100 (-250) 100 false false false false ⟨1, 100, 0⟩).debt =
          (⟨1, 100, 0⟩ : SysState).debt + 100 + |markToMarket (-250) 100 ⟨1, 100, 0⟩|)
      ∧ 0 ≤ (sysRow 100 (-250) 100 false false false false ⟨1, 100, 0⟩).equity
      ∧ ∀ (closeF : ℕ → ℚ) (eLF eSF gLF gSF : ℕ → Bool) (offset len : ℕ)
          (t : SysState), t ∈ sysRun 100 closeF eLF eSF gLF gSF offset len →
            0 ≤ t.equity) :=
  ⟨by norm_num, equity_injection_resets 100 (by norm_num) (-250) 100 false false false false _⟩

/-- C4: For every input series, every window `N ≥ 1` and every row at or
after the initial offset `N`, the `MMAX` (resp. `MMIN`) incremental
buffer-and-rescan recurrence produces exactly the brute-force window scan:
the maximum (resp. minimum) of the `N` buffered values of the current
lookback window — including the extreme-drop rows, on which the source
rescans the whole buffer. -/
theorem mmax_mmin_equal_brute_force_scan (v w : ℕ → ℚ) (N r : ℕ)
    (hN : 1 ≤ N) (hr : N ≤ r) :
    mmaxAt v N r = bruteForceMax v (r - N) N
    ∧ mminAt w N r = bruteForceMin w (r - N) N := by
  constructor
  · exact mmax_correct v N r hN hr
  · unfold mminAt bruteForceMin
    rw [mminState_eq w N hN (r - N)]

theorem mmax_mmin_equal_brute_force_scan_witness :
    (1 ≤ 2 ∧ 2 ≤ 4)
    ∧ (mmaxAt (fun n => ([5, 9, 4, 3, 8] : List ℚ).getD n 0) 2 4
        = bruteForceMax (fun n => ([5, 9, 4, 3, 8] : List ℚ).getD n 0) (4 - 2) 2
      ∧ mminAt (fun n => ([6, 2, 7, 8, 1] : List ℚ).getD n 0) 2 4
        = bruteForceMin (fun n => ([6, 2, 7, 8, 1] : List ℚ).getD n 0) (4 - 2) 2) :=
  ⟨⟨by norm_num, by norm_num⟩,
    mmax_mmin_equal_brute_force_scan _ _ 2 4 (by norm_num) (by norm_num)⟩

/-- C5: For every well-formed analysis with a non-empty set of preliminary
analyses, `__initialAnalysisPeriod__(i)` equals, for every slot `i`, the
maximum initial period across the analysis itself and all transitively
preliminary analyses over all of their lookback slots; and in the output
column of `run()` every row before that offset holds the explicit
not-available marker (the empty cell, embedded as `none` — in particular
never a computed value and never zero), while every row from the offset on
holds the computed value. -/
theorem warm_up_offset_and_markers (a : Analysis) (i : ℕ) (f : ℕ → ℚ) (len : ℕ)
    (hwf : WFAnalysis a) (hp : a.prelims ≠ []) :
    initialAnalysisPeriod a i = specWarmUpMax a
    ∧ (∀ r, r < initialAnalysisPeriod a i →
        (runColumn f (initialAnalysisPeriod a i) len)[r]? = some none)
    ∧ (∀ r, initialAnalysisPeriod a i ≤ r → r < len →
        (runColumn f (initialAnalysisPeriod a i) len)[r]? = some (some (f r))) :=
  ⟨offset_eq_specWarmUpMax a hwf hp i,
    fun r hr => runColumn_before f _ len r hr,
    fun r h1 h2 => runColumn_after f _ len r h1 h2⟩

theorem warm_up_offset_and_markers_witness :
    (WFAnalysis (.node false [3] [.node false [3] []])
      ∧ (Analysis.node false [3] [.node false [3] []]).prelims ≠ [])
    ∧ (initialAnalysisPeriod (.node false [3] [.node false [3] []]) 0
        = specWarmUpMax (.node false [3] [.node false [3] []])
      ∧ (∀ r, r < initialAnalysisPeriod (.node false [3] [.node false [3] []]) 0 →
          (runColumn (fun n => (n : ℚ))
            (initialAnalysisPeriod (.node false [3] [.node false [3] []]) 0) 5)[r]?
            = some none)
      ∧ (∀ r, initialAnalysisPeriod (.node false [3] [.node false [3] []]) 0 ≤ r →
          r < 5 →
          (runColumn (fun n => (n : ℚ))
            (initialAnalysisPeriod (.node false [3] [.node false [3] []]) 0) 5)[r]?
            = some (some (r : ℚ)))) :=
  have hwf : WFAnalysis (.node false [3] [.node false [3] []]) :=
    WFAnalysis.mk false [3] [.node false [3] []] (by simp)
      (fun p hp => by
        rw [List.mem_singleton] at hp
        subst hp
        exact WFAnalysis.mk false [3] [] (by simp)
          (fun q hq => absurd hq (List.not_mem_nil q)) (fun h => by simp at h))
      (fun h => by simp at h)
  ⟨⟨hwf, by simp [Analysis.prelims]⟩,
    warm_up_offset_and_markers _ 0 (fun n => (n : ℚ)) 5 hwf (by simp [Analysis.prelims])⟩

/-- C6: On the ascending three-row date column `[1, 2, 10]` with initial
offset `0`, looking up the date `5` passes both boundary checks (so the
`while True` binary search is entered), the first pass moves the state from
`(lower, upper) = (0, 2)` to `(1, 2)`, and the pass on `(1, 2)` returns
`(1, 2)` again — a non-returning fixpoint, so `__rowAtDate__` never
terminates, instead of returning row 2, the first row whose date is on or
after the target. -/
theorem row_at_date_search_never_terminates :
    rowAtDateBoundary loopDates 0 2 5 = none
    ∧ rowAtDateStep loopDates 5 (0, 2) = .inl (1, 2)
    ∧ rowAtDateStep loopDates 5 (1, 2) = .inl (1, 2) := by
  refine ⟨?_, ?_, ?_⟩ <;> decide

/-- C7: `timeSeriesAnalysis.__init__` called with the non-positive lookback
window `[0]` prints the warning message but still returns the fully
constructed configuration — no exception is raised — and with the resulting
offset the `run()` row loop computes a value for every row of a three-row
dataset: the analysis does run with the invalid window instead of failing
fast. -/
theorem lookback_validation_does_not_abort :
    tsaInit [0] =
      (["Number of lookback days must be greater than zero."], ⟨[0]⟩)
    ∧ runColumn (fun n => (n : ℚ)) 0 3 = [some 0, some 1, some 2] := by
  constructor
  · rfl
  · show List.replicate 0 (none : Option ℚ) ++
        (List.range' 0 (3 - 0)).map (fun r => some ((r : ℚ))) = [some 0, some 1, some 2]
    norm_num [List.range']

/-- C8: On the four-month return series `[1/5, 2/5, -1/10, -3/10]` the
variance computed by `__downsideSdevReturns__` is `13/25` for any monthly
risk-free rate — its first loop's `if x<0.0: continue` keeps the
NON-negative returns, so the residuals of the two downside returns are taken
around the mean of the upside returns and divided using the upside count —
while the downside-only sample variance of the same series is `1/50`.  On
`[1/5, -1/10, -3/10]` (one upside, two downside returns) the code's
`n < 2` guard makes the variance `0`, so `__SortinoRatio__` returns the
`"NaN"` sentinel even though the downside-only variance is `1/50 ≠ 0`.  The
Sortino numerator uses the plain (not excess) mean: `3/5` instead of
`12/25` at a monthly risk-free rate of `1/100`. -/
theorem sortino_downside_loops_inverted :
    downsideVarCode (1/100) [1/5, 2/5, -1/10, -3/10] = 13/25
    ∧ downsideVarCode (1/250) [1/5, 2/5, -1/10, -3/10] = 13/25
    ∧ downsideVarSpec (1/100) [1/5, 2/5, -1/10, -3/10] = 1/50
    ∧ downsideVarCode (1/100) [1/5, 2/5, -1/10, -3/10]
        ≠ downsideVarSpec (1/100) [1/5, 2/5, -1/10, -3/10]
    ∧ downsideVarCode (1/100) [1/5, -1/10, -3/10] = 0
    ∧ sortinoIsNaN (1/100) [1/5, -1/10, -3/10] = true
    ∧ downsideVarSpec (1/100) [1/5, -1/10, -3/10] = 1/50
    ∧ sortinoMeanCode [1/5, 2/5, -1/10, -3/10] = 3/5
    ∧ sortinoMeanSpec (1/100) [1/5, 2/5, -1/10, -3/10] = 12/25 := by
  refine ⟨?_, ?_, ?_, ?_, ?_, ?_, ?_, ?_, ?_⟩ <;>
    norm_num [downsideVarCode, downsideMeanCode, downsideVarSpec, sortinoIsNaN,
      sortinoMeanCode, sortinoMeanSpec]

/-- Helper for C9: the complete `Hold` run on the 20-row close series
`[100, ..., 119]`, row by row. -/
theorem holdRun_spec_eq : holdRun 100 specClose 20 =
    [⟨1,100,0⟩, ⟨1,101,0⟩, ⟨1,102,0⟩, ⟨1,103,0⟩, ⟨1,104,0⟩,
     ⟨1,105,0⟩, ⟨1,106,0⟩, ⟨1,107,0⟩, ⟨1,108,0⟩, ⟨1,109,0⟩,
     ⟨1,110,0⟩, ⟨1,111,0⟩, ⟨1,112,0⟩, ⟨1,113,0⟩, ⟨1,114,0⟩,
     ⟨1,115,0⟩, ⟨1,116,0⟩, ⟨1,117,0⟩, ⟨1,118,0⟩, ⟨1,119,0⟩] := by
  norm_num [holdRun, sysRun, sysRunFrom, sysRow, markToMarket, posStep, entryPhase,
    exitPhase, prevIdx, specClose, List.range', SysState.mk.injEq]

/-- C9: Running `Hold` on the close series `[100, ..., 119]` enters Long on
the first row and stays at position `+1` on every one of the 20 rows, never
injects debt (the debt column is identically 0), produces the strictly
increasing equity series `[100, 101, ..., 119]`, and ends with equity
exactly `100 * (119/100) = 119` — the per-row return factors telescope. -/
theorem hold_round_trip :
    (holdRun 100 specClose 20).map SysState.position = List.replicate 20 1
    ∧ (holdRun 100 specClose 20).map SysState.debt = List.replicate 20 0
    ∧ (holdRun 100 specClose 20).map SysState.equity =
        [100, 101, 102, 103, 104, 105, 106, 107, 108, 109,
         110, 111, 112, 113, 114, 115, 116, 117, 118, 119]
    ∧ List.Chain' (· < ·) ((holdRun 100 specClose 20).map SysState.equity)
    ∧ ((holdRun 100 specClose 20).map SysState.equity).getLast? =
        some (100 * (119 / 100)) := by
  have h := holdRun_spec_eq
  rw [h]
  refine ⟨by rfl, by rfl, ?_, ?_, ?_⟩
  · rfl
  · show List.Chain' (· < ·)
      ([100, 101, 102, 103, 104, 105, 106, 107, 108, 109, 110,
        111, 112, 113, 114, 115, 116, 117, 118, 119] : List ℚ)
    simp only [List.chain'_cons, List.chain'_singleton, and_true]
    norm_num
  · show (([100, 101, 102, 103, 104, 105, 106, 107, 108, 109, 110,
        111, 112, 113, 114, 115, 116, 117, 118, 119] : List ℚ)).getLast? =
        some (100 * (119 / 100))
    norm_num

/-- C10: For every trading-system run, the debt column is non-decreasing:
it starts at the `__init__` value 0 and each row either leaves debt
unchanged or (exactly on the injection rows, where the mark-to-market equity
is negative) increases it by `init_equity` plus the pre-injection deficit. -/
theorem debt_never_decreases (initEquity : ℚ) (close : ℕ → ℚ)
    (eL eS gL gS : ℕ → Bool) (offset len : ℕ) (hinit : 0 ≤ initEquity) :
    List.Chain' (fun a b => a.debt ≤ b.debt)
      (({ position := 0, equity := initEquity, debt := 0 } : SysState) ::
        sysRun initEquity close eL eS gL gS offset len)
    ∧ ∀ (c pc : ℚ) (b1 b2 b3 b4 : Bool) (s : SysState),
        (sysRow initEquity c pc b1 b2 b3 b4 s).debt = s.debt
        ∨ ((sysRow initEquity c pc b1 b2 b3 b4 s).debt
              = s.debt + initEquity + |markToMarket c pc s|
            ∧ markToMarket c pc s < 0) := by
  constructor
  · exact sysRunFrom_debt_chain _
      (fun r s => sysRow_debt_le initEquity _ _ _ _ _ _ s hinit) _ _
  · intro c pc b1 b2 b3 b4 s
    by_cases hneg : markToMarket c pc s < 0
    · refine Or.inr ⟨?_, hneg⟩
      rw [sysRow_debt_eq, if_pos hneg, abs_of_neg hneg]
      ring
    · exact Or.inl (by rw [sysRow_debt_eq, if_neg hneg])

theorem debt_never_decreases_witness :
    (0 : ℚ) ≤ 100
    ∧ (List.Chain' (fun a b => a.debt ≤ b.debt)
        (({ position := 0, equity := 100, debt := 0 } : SysState) ::
          sysRun 100 specClose (fun _ => false) (fun _ => false) (fun _ => true)
            (fun _ => false) 0 20)
      ∧ ∀ (c pc : ℚ) (b1 b2 b3 b4 : Bool) (s : SysState),
          (sysRow 100 c pc b1 b2 b3 b4 s).debt = s.debt
          ∨ ((sysRow 100 c pc b1 b2 b3 b4 s).debt
                = s.debt + 100 + |markToMarket c pc s|
              ∧ markToMarket c pc s < 0)) :=
  ⟨by norm_num,
    debt_never_decreases 100 specClose (fun _ => false) (fun _ => false)
      (fun _ => true) (fun _ => false) 0 20 (by norm_num)⟩

end MarketData
